import Mathlib

/-
Verification of the beets ftseparator plugin (src/beetsplug/ftseparator.py).

Python strings are modelled as lists of characters (`Str`); the host-supplied
conjunction regular expression (beets `plugins.feat_tokens`, which is not part
of the plugin file) is modelled abstractly by its Python `re.split` behaviour
(`FeatPattern`).  Field mutation and logging are made explicit: `ft_separate`
returns the updated item together with the list of emitted log lines, and the
command / import-hook loops return the processed items together with the trace
of persistence calls (`store` / `try_write`) they issue.
-/

namespace FtSeparator

/-- Python strings, modelled as lists of characters. -/
abbrev Str := List Char

/-- Embedding of a Lean string literal into the model. -/
def str (s : String) : Str := s.toList

/-- Python `str.strip()`: drop leading and trailing whitespace characters. -/
def strip (s : Str) : Str :=
  ((s.dropWhile Char.isWhitespace).reverse.dropWhile Char.isWhitespace).reverse

/-- Python `sep.join(parts)`: concatenate the parts, inserting the separator
between consecutive entries only (a singleton is reproduced unchanged). -/
def join (sep : Str) : List Str → Str
  | [] => []
  | [p] => p
  | p :: q :: ps => p ++ sep ++ join sep (q :: ps)

/-- Interleave the parts produced by a regex split with the matched tokens:
`interleave [p0, p1, ..., pn] [t0, ..., t(n-1)] = p0 ++ t0 ++ p1 ++ ... ++ pn`.
Under Python `re.split` semantics this reconstructs the original string. -/
def interleave : List Str → List Str → Str
  | [], _ => []
  | p :: _, [] => p
  | p :: ps, t :: ts => p ++ t ++ interleave ps ts

/-- Modelled from the spec: the conjunction pattern is owned by the host
application (beets `plugins.feat_tokens`, not under src/) and is injected into
the plugin.  It is abstracted by its Python `re.split` behaviour: `split s` is
the list of parts of `s` between successive non-overlapping matches, `tokens s`
the list of matched conjunction texts, in order.  The invariants are those of
`re.split`: one more part than matches, parts interleaved with tokens
reconstruct the input, and every matched conjunction token (a word such as
"feat.", "ft.", "with") is non-empty. -/
structure FeatPattern where
  split : Str → List Str
  tokens : Str → List Str
  length_eq : ∀ s, (split s).length = (tokens s).length + 1
  reconstruct : ∀ s, interleave (split s) (tokens s) = s
  tokens_ne : ∀ s t, t ∈ tokens s → t ≠ []

/-- `split_on_feat` from the plugin: split the artist string on every match of
the conjunction pattern and strip each part. -/
def split_on_feat (P : FeatPattern) (artist : Str) : List Str :=
  (P.split artist).map strip

/-- A library item, restricted to the three fields the plugin touches. -/
structure Item where
  artist : Str
  albumartist : Str
  artist_sort : Str
deriving DecidableEq

/-- One informational log line `<field>: <old> -> <new>`. -/
structure LogEntry where
  field : Str
  old : Str
  new : Str
deriving DecidableEq

/-- `ft_separate` from the plugin: per field, strip the value, split on the
conjunction pattern and rejoin with the separator; if the rejoined string
differs from the stripped value, overwrite the field and emit one log line
showing the old and the new value.  The album-artist field is processed only
when `convert_album_artist` is set and the field is non-empty (Python
truthiness), and likewise the sort-artist field. -/
def ft_separate (P : FeatPattern) (item : Item) (separator : Str)
    (convert_album_artist convert_sort_artist : Bool) : Item × List LogEntry :=
  let artist := strip item.artist
  let artist_list := join separator (split_on_feat P artist)
  let step1 : Item × List LogEntry :=
    if artist_list ≠ artist then
      ({ item with artist := artist_list },
        [⟨str "artist", item.artist, artist_list⟩])
    else (item, [])
  let item1 := step1.1
  let step2 : Item × List LogEntry :=
    if convert_album_artist && !item1.albumartist.isEmpty then
      let albumartist := strip item1.albumartist
      let albumartist_list := join separator (split_on_feat P albumartist)
      if albumartist_list ≠ albumartist then
        ({ item1 with albumartist := albumartist_list },
          [⟨str "albumartist", item1.albumartist, albumartist_list⟩])
      else (item1, [])
    else (item1, [])
  let item2 := step2.1
  let step3 : Item × List LogEntry :=
    if convert_sort_artist && !item2.artist_sort.isEmpty then
      let artist_sort := strip item2.artist_sort
      let artist_sort_list := join separator (split_on_feat P artist_sort)
      if artist_sort_list ≠ artist_sort then
        ({ item2 with artist_sort := artist_sort_list },
          [⟨str "artist_sort", item2.artist_sort, artist_sort_list⟩])
      else (item2, [])
    else (item2, [])
  (step3.1, step1.2 ++ step2.2 ++ step3.2)

/-- The plugin's four configuration options (added with these defaults in
`FtSeparatorPlugin.__init__`). -/
structure Config where
  auto : Bool
  separator : Str
  convert_album_artist : Bool
  convert_sort_artist : Bool
deriving DecidableEq

/-- The defaults registered by `self.config.add(...)`. -/
def defaultConfig : Config :=
  { auto := true
    separator := str "; "
    convert_album_artist := false
    convert_sort_artist := false }

/-- A command-line invocation of the ftseparator subcommand: whether and with
which value each flag was supplied. -/
structure CmdLine where
  separator : Option Str
  albumartist : Bool
  sortartist : Bool

/-- The option values produced by the option declarations in
`FtSeparatorPlugin.__init__`: `None` marks an option the parser left unset.
The `-s` (long form `--separator`) option is declared with `default="; "`, so
when the flag is absent its parsed value is the string `"; "`, not `None`; the
`-a` (`--albumartist`) and `-r` (`--sortartist`) options are declared with
`default=None` and `action="store_true"`. -/
structure ParsedOpts where
  separator : Option Str
  convert_album_artist : Option Bool
  convert_sort_artist : Option Bool

/-- Option parsing as configured in `FtSeparatorPlugin.__init__`. -/
def parseOpts (c : CmdLine) : ParsedOpts :=
  { separator := some (c.separator.getD (str "; "))
    convert_album_artist := if c.albumartist then some true else none
    convert_sort_artist := if c.sortartist then some true else none }

/-- Modelled from the spec: `self.config.set_args(opts)` is provided by the
host configuration library (not under src/).  It overlays every parsed option
value onto the configuration, skipping options whose parsed value is `None`
(unset flags), so a flag overrides the configured value only when the parser
produced a value for it. -/
def set_args (cfg : Config) (opts : ParsedOpts) : Config :=
  { cfg with
    separator := opts.separator.getD cfg.separator
    convert_album_artist := opts.convert_album_artist.getD cfg.convert_album_artist
    convert_sort_artist := opts.convert_sort_artist.getD cfg.convert_sort_artist }

/-- The separator value the command body reads after `set_args`
(`self.config["separator"].get()` in `func`). -/
def commandSeparator (cfg : Config) (c : CmdLine) : Str :=
  (set_args cfg (parseOpts c)).separator

/-- Modelled from the spec: the persistence calls the plugin issues on the
host (`item.store()` commits to the library database, `item.try_write()` is
the best-effort on-disk tag write); both are host operations recorded here as
trace events. -/
inductive Action where
  | store (i : Item)
  | tryWrite (i : Item)
deriving DecidableEq

/-- The loop body of `func` in `FtSeparatorPlugin.commands`: for each item in
query order, apply `ft_separate`, call `store()`, and call `try_write()` when
the host's global write setting is active. -/
def funcLoop (P : FeatPattern) (separator : Str) (album sort write : Bool) :
    List Item → List Item × List Action
  | [] => ([], [])
  | i :: is =>
    let i2 := (ft_separate P i separator album sort).1
    let rest := funcLoop P separator album sort write is
    (i2 :: rest.1,
      (Action.store i2 :: if write then [Action.tryWrite i2] else []) ++ rest.2)

/-- The body of `func`: overlay the parsed options on the configuration, read
the separator and the two field flags from it, then run the per-item loop over
the items the library query resolved to. -/
def commandFunc (P : FeatPattern) (cfg : Config) (c : CmdLine) (write : Bool)
    (items : List Item) : List Item × List Action :=
  let q := set_args cfg (parseOpts c)
  funcLoop P q.separator q.convert_album_artist q.convert_sort_artist write items

/-- The import-stage hook `FtSeparatorPlugin.imported`: read separator and
flags from the configuration, then apply `ft_separate` and `store()` to each
item the task reports as imported, in enumeration order. -/
def imported (P : FeatPattern) (cfg : Config) : List Item → List Item × List Action
  | [] => ([], [])
  | i :: is =>
    let i2 := (ft_separate P i cfg.separator cfg.convert_album_artist
      cfg.convert_sort_artist).1
    let rest := imported P cfg is
    (i2 :: rest.1, Action.store i2 :: rest.2)

/-- Marker for the `self.imported` hook in the plugin's stage list. -/
inductive Stage where
  | importedStage
deriving DecidableEq

/-- Registration in `FtSeparatorPlugin.__init__`: the stage list is
`[self.imported]` when the `auto` option is set, empty otherwise. -/
def import_stages (cfg : Config) : List Stage :=
  if cfg.auto then [Stage.importedStage] else []

/-- A conjunction pattern with no match anywhere (every token list empty), the
degenerate instance of the re.split semantics. -/
def trivPattern : FeatPattern where
  split s := [s]
  tokens _ := []
  length_eq _ := rfl
  reconstruct _ := rfl
  tokens_ne _ _ h := absurd h (List.not_mem_nil _)

/-- A conjunction pattern agreeing with the real beets pattern on the string
"Artist A feat. Artist B" (one match, the token "feat.") and matching nowhere
else. -/
def featSplit (s : Str) : List Str :=
  if s = str "Artist A feat. Artist B" then [str "Artist A ", str " Artist B"]
  else [s]

/-- Matched tokens of `featSplit`. -/
def featTokens (s : Str) : List Str :=
  if s = str "Artist A feat. Artist B" then [str "feat."] else []

/-- The `featSplit` pattern bundled with its re.split invariants. -/
def featPattern : FeatPattern where
  split := featSplit
  tokens := featTokens
  length_eq s := by
    unfold featSplit featTokens
    by_cases h : s = str "Artist A feat. Artist B" <;> simp [h]
  reconstruct s := by
    unfold featSplit featTokens
    by_cases h : s = str "Artist A feat. Artist B"
    · subst h; decide
    · simp [h, interleave]
  tokens_ne s t ht := by
    unfold featTokens at ht
    by_cases h : s = str "Artist A feat. Artist B"
    · rw [if_pos h] at ht
      simp only [List.mem_singleton] at ht
      subst ht; decide
    · rw [if_neg h] at ht
      exact absurd ht (List.not_mem_nil _)

/-- A conjunction pattern agreeing with the real beets pattern (word tokens
such as "with" and "feat." surrounded by whitespace, matched case-insensitively)
on the strings "A fea with B" and "A feat. B", and matching nowhere else; in
particular it has no match in the separator text "t. ". -/
def cexSplit (s : Str) : List Str :=
  if s = str "A fea with B" then [str "A fea ", str " B"]
  else if s = str "A feat. B" then [str "A ", str " B"]
  else [s]

/-- Matched tokens of `cexSplit`. -/
def cexTokens (s : Str) : List Str :=
  if s = str "A fea with B" then [str "with"]
  else if s = str "A feat. B" then [str "feat."]
  else []

/-- The `cexSplit` pattern bundled with its re.split invariants. -/
def cexPattern : FeatPattern where
  split := cexSplit
  tokens := cexTokens
  length_eq s := by
    unfold cexSplit cexTokens
    by_cases h1 : s = str "A fea with B"
    · simp [h1]
    · by_cases h2 : s = str "A feat. B"
      · subst h2; decide
      · simp [h1, h2]
  reconstruct s := by
    unfold cexSplit cexTokens
    by_cases h1 : s = str "A fea with B"
    · subst h1; decide
    · by_cases h2 : s = str "A feat. B"
      · subst h2; simp [h1]; decide
      · simp [h1, h2, interleave]
  tokens_ne s t ht := by
    unfold cexTokens at ht
    by_cases h1 : s = str "A fea with B"
    · rw [if_pos h1] at ht
      simp only [List.mem_singleton] at ht
      subst ht; decide
    · rw [if_neg h1] at ht
      by_cases h2 : s = str "A feat. B"
      · rw [if_pos h2] at ht
        simp only [List.mem_singleton] at ht
        subst ht; decide
      · rw [if_neg h2] at ht
        exact absurd ht (List.not_mem_nil _)

/-- Rejoining a one-element sequence reproduces that element unchanged. -/
lemma join_singleton (sep p : Str) : join sep [p] = p := rfl

/-- Rejoining a two-element sequence inserts the separator once. -/
lemma join_pair (sep p q : Str) : join sep [p, q] = p ++ sep ++ q := rfl

/-- Under the re.split invariants, a string with no match splits into the
singleton of itself. -/
lemma split_of_tokens_nil (P : FeatPattern) (s : Str) (h : P.tokens s = []) :
    P.split s = [s] := by
  have hl := P.length_eq s
  rw [h] at hl
  simp only [List.length_nil, Nat.zero_add] at hl
  obtain ⟨p, hp⟩ := List.length_eq_one.mp hl
  have hr := P.reconstruct s
  rw [hp, h] at hr
  simp only [interleave] at hr
  rw [hp, hr]

/-- Under the re.split invariants, the conjunction pattern has no match in the
empty string: any match would have to contribute a non-empty token to a string
of length zero. -/
lemma tokens_nil_of_empty (P : FeatPattern) : P.tokens [] = [] := by
  by_contra hne
  obtain ⟨t, ts, ht⟩ := List.exists_cons_of_ne_nil hne
  have hl := P.length_eq []
  rw [ht] at hl
  have hr := P.reconstruct []
  rw [ht] at hr
  rcases hsp : P.split [] with _ | ⟨p, rest⟩
  · rw [hsp] at hl; simp at hl
  · rcases rest with _ | ⟨q, rest2⟩
    · rw [hsp] at hl; simp at hl
    · rw [hsp] at hr
      simp only [interleave] at hr
      have htnil : t = [] := by
        simp only [List.append_eq_nil] at hr
        tauto
      exact P.tokens_ne [] t (by rw [ht]; exact List.mem_cons_self t ts) htnil

/-- Dropping a prefix of satisfying elements twice is the same as once. -/
lemma dropWhile_dropWhile (p : Char → Bool) (l : List Char) :
    (l.dropWhile p).dropWhile p = l.dropWhile p := by
  induction l with
  | nil => rfl
  | cons a t ih =>
    by_cases h : p a
    · simp [List.dropWhile_cons, h, ih]
    · simp [List.dropWhile_cons, h]

/-- The length of `dropWhile` never exceeds the length of the list. -/
lemma length_dropWhile_le (p : Char → Bool) (l : List Char) :
    (l.dropWhile p).length ≤ l.length := by
  induction l with
  | nil => simp
  | cons a t ih =>
    by_cases h : p a
    · simp only [List.dropWhile_cons, h, if_true]
      exact Nat.le_trans ih (Nat.le_succ _)
    · simp [List.dropWhile_cons, h]

/-- If `dropWhile` leaves `l ++ r` unchanged, it leaves the prefix `l`
unchanged as well. -/
lemma dropWhile_eq_self_of_append (p : Char → Bool) (l r : List Char)
    (h : (l ++ r).dropWhile p = l ++ r) : l.dropWhile p = l := by
  cases l with
  | nil => rfl
  | cons a t =>
    rw [List.cons_append, List.dropWhile_cons] at h
    rw [List.dropWhile_cons]
    by_cases hp : p a
    · exfalso
      rw [if_pos hp] at h
      have hle := length_dropWhile_le p (t ++ r)
      rw [h] at hle
      simp at hle
    · rw [if_neg hp]

/-- Python strip is idempotent. -/
lemma strip_strip (s : Str) : strip (strip s) = strip s := by
  unfold strip
  set A := s.dropWhile Char.isWhitespace with hA
  set B := A.reverse.dropWhile Char.isWhitespace with hB
  have hAA : A.dropWhile Char.isWhitespace = A := by
    rw [hA]; exact dropWhile_dropWhile _ _
  have hBB : B.dropWhile Char.isWhitespace = B := by
    rw [hB]; exact dropWhile_dropWhile _ _
  have hsplit : A = B.reverse ++ (A.reverse.takeWhile Char.isWhitespace).reverse := by
    have htd := List.takeWhile_append_dropWhile Char.isWhitespace A.reverse
    calc A = A.reverse.reverse := (List.reverse_reverse A).symm
    _ = (A.reverse.takeWhile Char.isWhitespace ++ B).reverse := by rw [hB, htd]
    _ = B.reverse ++ (A.reverse.takeWhile Char.isWhitespace).reverse := by
        rw [List.reverse_append]
  have h1 : B.reverse.dropWhile Char.isWhitespace = B.reverse :=
    dropWhile_eq_self_of_append _ _ _ (by rw [← hsplit]; exact hAA)
  rw [h1, List.reverse_reverse, hBB]

/-- Stripping an already stripped value does nothing, so `split_on_feat` of a
no-match string is the singleton of its stripped form. -/
lemma split_on_feat_of_tokens_nil (P : FeatPattern) (s : Str)
    (h : P.tokens s = []) : split_on_feat P s = [strip s] := by
  unfold split_on_feat
  rw [split_of_tokens_nil P s h]
  rfl

/-- The rejoined form of one field value: strip it, tokenize, rejoin with the
separator. -/
def rejoined (P : FeatPattern) (sep x : Str) : Str :=
  join sep (split_on_feat P (strip x))

/-- The value a processed field holds after `ft_separate`: overwritten with the
rejoined form exactly when that differs from the stripped value. -/
def processVal (P : FeatPattern) (sep x : Str) : Str :=
  if rejoined P sep x = strip x then x else rejoined P sep x

/-- The log lines a processed field contributes: one line with the old
(unstripped) and new value exactly when the field is overwritten. -/
def logVal (n : Str) (P : FeatPattern) (sep x : Str) : List LogEntry :=
  if rejoined P sep x = strip x then [] else [⟨n, x, rejoined P sep x⟩]

/-- Closed form of `ft_separate`: each field is processed independently, the
album-artist and sort-artist fields only under their flag-and-non-empty
guards, and the log is the concatenation of the three fields' contributions in
field order. -/
lemma ft_separate_eq (P : FeatPattern) (item : Item) (sep : Str) (a s : Bool) :
    ft_separate P item sep a s =
      ({ artist := processVal P sep item.artist
         albumartist :=
           if a && !item.albumartist.isEmpty then processVal P sep item.albumartist
           else item.albumartist
         artist_sort :=
           if s && !item.artist_sort.isEmpty then processVal P sep item.artist_sort
           else item.artist_sort },
       logVal (str "artist") P sep item.artist ++
         (if a && !item.albumartist.isEmpty then
           logVal (str "albumartist") P sep item.albumartist
         else []) ++
         (if s && !item.artist_sort.isEmpty then
           logVal (str "artist_sort") P sep item.artist_sort
         else [])) := by
  unfold ft_separate
  by_cases h1 : join sep (split_on_feat P (strip item.artist)) = strip item.artist <;>
  by_cases h2 : (a && !item.albumartist.isEmpty) = true <;>
  by_cases h3 :
    join sep (split_on_feat P (strip item.albumartist)) = strip item.albumartist <;>
  by_cases h4 : (s && !item.artist_sort.isEmpty) = true <;>
  by_cases h5 :
    join sep (split_on_feat P (strip item.artist_sort)) = strip item.artist_sort <;>
  simp [h1, h2, h3, h4, h5, processVal, logVal, rejoined]

/-- Artist component of the closed form of `ft_separate`. -/
lemma ft_separate_artist (P : FeatPattern) (item : Item) (sep : Str) (a s : Bool) :
    (ft_separate P item sep a s).1.artist = processVal P sep item.artist := by
  rw [ft_separate_eq]

/-- Album-artist component of the closed form of `ft_separate`. -/
lemma ft_separate_albumartist (P : FeatPattern) (item : Item) (sep : Str)
    (a s : Bool) :
    (ft_separate P item sep a s).1.albumartist =
      (if a && !item.albumartist.isEmpty then processVal P sep item.albumartist
       else item.albumartist) := by
  rw [ft_separate_eq]

/-- Sort-artist component of the closed form of `ft_separate`. -/
lemma ft_separate_artist_sort (P : FeatPattern) (item : Item) (sep : Str)
    (a s : Bool) :
    (ft_separate P item sep a s).1.artist_sort =
      (if s && !item.artist_sort.isEmpty then processVal P sep item.artist_sort
       else item.artist_sort) := by
  rw [ft_separate_eq]

/-- Log component of the closed form of `ft_separate`. -/
lemma ft_separate_logs (P : FeatPattern) (item : Item) (sep : Str) (a s : Bool) :
    (ft_separate P item sep a s).2 =
      logVal (str "artist") P sep item.artist ++
        (if a && !item.albumartist.isEmpty then
          logVal (str "albumartist") P sep item.albumartist
        else []) ++
        (if s && !item.artist_sort.isEmpty then
          logVal (str "artist_sort") P sep item.artist_sort
        else []) := by
  rw [ft_separate_eq]

/-- Unfolding equation for `logVal` in terms of the source expressions. -/
lemma logVal_eq (n : Str) (P : FeatPattern) (sep x : Str) :
    logVal n P sep x =
      (if join sep (split_on_feat P (strip x)) = strip x then []
       else [⟨n, x, join sep (split_on_feat P (strip x))⟩]) := rfl

/-- Unfolding equation for `processVal` in terms of the source expressions. -/
lemma processVal_eq (P : FeatPattern) (sep x : Str) :
    processVal P sep x =
      (if join sep (split_on_feat P (strip x)) = strip x then x
       else join sep (split_on_feat P (strip x))) := rfl

/-- A field's log contribution contains no entry for a different field name. -/
lemma filter_logVal_ne (n m : Str) (P : FeatPattern) (sep x : Str) (h : ¬ n = m) :
    (logVal n P sep x).filter (fun e => e.field = m) = [] := by
  unfold logVal
  by_cases hc : rejoined P sep x = strip x
  · rw [if_pos hc]; rfl
  · rw [if_neg hc]
    simp [List.filter_cons, h]

/-- Filtering a field's log contribution for its own field name keeps it. -/
lemma filter_logVal_self (n : Str) (P : FeatPattern) (sep x : Str) :
    (logVal n P sep x).filter (fun e => e.field = n) = logVal n P sep x := by
  unfold logVal
  by_cases hc : rejoined P sep x = strip x
  · rw [if_pos hc]; rfl
  · rw [if_neg hc]
    simp [List.filter_cons]

/-- A guarded log contribution for a different field name filters to nothing,
whatever the guard. -/
lemma filter_if_logVal_ne (c : Prop) [Decidable c] (n m : Str) (P : FeatPattern)
    (sep x : Str) (h : ¬ n = m) :
    (if c then logVal n P sep x else []).filter (fun e => e.field = m) = [] := by
  by_cases hc : c
  · rw [if_pos hc]; exact filter_logVal_ne n m P sep x h
  · rw [if_neg hc]; rfl

/-- C1: the claim says that whenever the -s flag is not supplied, the
separator used equals the configured `separator` option.  The code violates
this: the -s option is declared with optparse default "; " (not None), so
`set_args` copies "; " into the configuration even when the flag is absent,
overriding a configured separator such as " / ".  This theorem evaluates the
command path at that failing configuration. -/
theorem separator_flag_absent_overrides_config :
    commandSeparator { defaultConfig with separator := str " / " }
        { separator := none, albumartist := false, sortartist := false } =
      str "; " ∧
    ¬ str "; " = str " / " := by decide

/-- C2: for every string in which the injected conjunction pattern has no
match and for every separator, joining the parts returned by `split_on_feat`
with the separator yields exactly the stripped input. -/
theorem rejoin_split_no_conjunction (P : FeatPattern) (s sep : Str)
    (h : P.tokens s = []) :
    join sep (split_on_feat P s) = strip s := by
  rw [split_on_feat_of_tokens_nil P s h, join_singleton]

/-- Witness for C2 at a concrete no-conjunction input. -/
theorem rejoin_split_no_conjunction_witness :
    trivPattern.tokens (str " Solo Artist ") = [] ∧
    join (str "; ") (split_on_feat trivPattern (str " Solo Artist ")) =
      strip (str " Solo Artist ") :=
  ⟨rfl,
    rejoin_split_no_conjunction trivPattern (str " Solo Artist ") (str "; ") rfl⟩

/-- C3: `split_on_feat` always returns at least one part; on the empty string
it returns the singleton of the empty string; and when the conjunction
pattern has no match it returns exactly the singleton of the stripped
input. -/
theorem split_on_feat_guarantees (P : FeatPattern) (s : Str) :
    1 ≤ (split_on_feat P s).length ∧
    split_on_feat P [] = [[]] ∧
    (P.tokens s = [] → split_on_feat P s = [strip s]) := by
  refine ⟨?_, ?_, split_on_feat_of_tokens_nil P s⟩
  · unfold split_on_feat
    rw [List.length_map, P.length_eq s]
    exact Nat.succ_le_succ (Nat.zero_le _)
  · rw [split_on_feat_of_tokens_nil P [] (tokens_nil_of_empty P)]
    rfl

/-- Witness for C3, discharging the no-match hypothesis at a concrete
input. -/
theorem split_on_feat_guarantees_witness :
    trivPattern.tokens (str "Solo") = [] ∧
    split_on_feat trivPattern (str "Solo") = [strip (str "Solo")] :=
  ⟨rfl, (split_on_feat_guarantees trivPattern (str "Solo")).2.2 rfl⟩

/-- C4: when the conjunction pattern matches exactly once, splitting the input
into the part before the match and the part after it, rejoining the parts
returned by `split_on_feat` with any separator yields the stripped left part,
the separator, and the stripped right part. -/
theorem rejoin_split_single_conjunction (P : FeatPattern) (s a b sep : Str)
    (h : P.split s = [a, b]) :
    (∃ t, P.tokens s = [t] ∧ a ++ t ++ b = s) ∧
    join sep (split_on_feat P s) = strip a ++ sep ++ strip b := by
  constructor
  · have hl := P.length_eq s
    rw [h] at hl
    simp only [List.length_cons, List.length_nil] at hl
    have hlen : (P.tokens s).length = 1 := by omega
    obtain ⟨t, ht⟩ := List.length_eq_one.mp hlen
    refine ⟨t, ht, ?_⟩
    have hr := P.reconstruct s
    rw [h, ht] at hr
    simpa [interleave] using hr
  · unfold split_on_feat
    rw [h]
    rfl

/-- Witness for C4: the spec scenario "Artist A feat. Artist B" with separator
"; " yields "Artist A; Artist B". -/
theorem rejoin_split_single_conjunction_witness :
    featPattern.split (str "Artist A feat. Artist B") =
      [str "Artist A ", str " Artist B"] ∧
    join (str "; ") (split_on_feat featPattern (str "Artist A feat. Artist B")) =
      strip (str "Artist A ") ++ str "; " ++ strip (str " Artist B") :=
  ⟨by decide,
    (rejoin_split_single_conjunction featPattern
      (str "Artist A feat. Artist B") (str "Artist A ") (str " Artist B")
      (str "; ") (by decide)).2⟩

/-- C5: for every item and every processed field, `ft_separate` overwrites the
field and emits exactly one log line (carrying the old and the new value) when
the rejoined string differs from the stripped original field value, and leaves
the field untouched with no log entry for it when they coincide; the
album-artist and sort-artist conjuncts hold whenever those fields are actually
processed (flag set and field non-empty). -/
theorem ft_separate_write_log_iff (P : FeatPattern) (item : Item) (sep : Str)
    (a s : Bool) :
    ((ft_separate P item sep a s).1.artist =
        (if join sep (split_on_feat P (strip item.artist)) = strip item.artist
         then item.artist
         else join sep (split_on_feat P (strip item.artist))) ∧
      (ft_separate P item sep a s).2.filter (fun e => e.field = str "artist") =
        (if join sep (split_on_feat P (strip item.artist)) = strip item.artist
         then []
         else [⟨str "artist", item.artist,
                join sep (split_on_feat P (strip item.artist))⟩])) ∧
    (a = true → ¬ item.albumartist = [] →
      (ft_separate P item sep a s).1.albumartist =
          (if join sep (split_on_feat P (strip item.albumartist)) =
              strip item.albumartist
           then item.albumartist
           else join sep (split_on_feat P (strip item.albumartist))) ∧
        (ft_separate P item sep a s).2.filter
            (fun e => e.field = str "albumartist") =
          (if join sep (split_on_feat P (strip item.albumartist)) =
              strip item.albumartist
           then []
           else [⟨str "albumartist", item.albumartist,
                  join sep (split_on_feat P (strip item.albumartist))⟩])) ∧
    (s = true → ¬ item.artist_sort = [] →
      (ft_separate P item sep a s).1.artist_sort =
          (if join sep (split_on_feat P (strip item.artist_sort)) =
              strip item.artist_sort
           then item.artist_sort
           else join sep (split_on_feat P (strip item.artist_sort))) ∧
        (ft_separate P item sep a s).2.filter
            (fun e => e.field = str "artist_sort") =
          (if join sep (split_on_feat P (strip item.artist_sort)) =
              strip item.artist_sort
           then []
           else [⟨str "artist_sort", item.artist_sort,
                  join sep (split_on_feat P (strip item.artist_sort))⟩])) := by
  refine ⟨⟨?_, ?_⟩, ?_, ?_⟩
  · rw [ft_separate_artist]
    exact processVal_eq P sep item.artist
  · rw [ft_separate_logs, List.filter_append, List.filter_append,
      filter_logVal_self,
      filter_if_logVal_ne _ _ _ _ _ _ (by decide),
      filter_if_logVal_ne _ _ _ _ _ _ (by decide),
      List.append_nil, List.append_nil]
    exact logVal_eq _ _ _ _
  · intro ha hne
    have g1 : (a && !item.albumartist.isEmpty) = true := by
      simp [ha, List.isEmpty_eq_false.mpr hne]
    constructor
    · rw [ft_separate_albumartist, if_pos g1]
      exact processVal_eq P sep item.albumartist
    · rw [ft_separate_logs, List.filter_append, List.filter_append,
        filter_logVal_ne _ _ _ _ _ (by decide), if_pos g1, filter_logVal_self,
        filter_if_logVal_ne _ _ _ _ _ _ (by decide),
        List.nil_append, List.append_nil]
      exact logVal_eq _ _ _ _
  · intro hs hne
    have g2 : (s && !item.artist_sort.isEmpty) = true := by
      simp [hs, List.isEmpty_eq_false.mpr hne]
    constructor
    · rw [ft_separate_artist_sort, if_pos g2]
      exact processVal_eq P sep item.artist_sort
    · rw [ft_separate_logs, List.filter_append, List.filter_append,
        filter_logVal_ne _ _ _ _ _ (by decide),
        filter_if_logVal_ne _ _ _ _ _ _ (by decide), if_pos g2,
        filter_logVal_self, List.nil_append, List.nil_append]
      exact logVal_eq _ _ _ _

/-- A concrete item whose three fields all contain the conjunction. -/
def wItem : Item :=
  ⟨str "Artist A feat. Artist B", str "Artist A feat. Artist B",
   str "Artist A feat. Artist B"⟩

/-- Witness for C5: at a concrete item with non-empty album-artist and
sort-artist fields and both flags set, the guarded conjuncts of
`ft_separate_write_log_iff` apply and the two optional fields are overwritten
with their rejoined forms. -/
theorem ft_separate_write_log_iff_witness :
    (¬ wItem.albumartist = []) ∧ (¬ wItem.artist_sort = []) ∧
    (ft_separate featPattern wItem (str "; ") true true).1.albumartist =
      join (str "; ") (split_on_feat featPattern (strip wItem.albumartist)) ∧
    (ft_separate featPattern wItem (str "; ") true true).1.artist_sort =
      join (str "; ") (split_on_feat featPattern (strip wItem.artist_sort)) := by
  refine ⟨by decide, by decide, ?_, ?_⟩
  · have h :=
      (ft_separate_write_log_iff featPattern wItem (str "; ") true true).2.1
        rfl (by decide)
    rw [h.1, if_neg (by decide)]
  · have h :=
      (ft_separate_write_log_iff featPattern wItem (str "; ") true true).2.2
        rfl (by decide)
    rw [h.1, if_neg (by decide)]

/-- C6: with the album-artist flag off the album-artist field is untouched and
unlogged whatever its content; with the flag on and the field empty it is also
untouched and unlogged; the sort-artist field behaves the same under its flag;
and the primary artist result neither affects nor is affected by the two
optional fields (each field's outcome is a function of that field's own input
and its own flag). -/
theorem ft_separate_frame (P : FeatPattern) (item : Item) (sep x y x2 y2 : Str)
    (a s a2 s2 : Bool) :
    ((ft_separate P item sep false s).1.albumartist = item.albumartist ∧
      (ft_separate P item sep false s).2.filter
        (fun e => e.field = str "albumartist") = []) ∧
    ((ft_separate P { item with albumartist := [] } sep a s).1.albumartist = [] ∧
      (ft_separate P { item with albumartist := [] } sep a s).2.filter
        (fun e => e.field = str "albumartist") = []) ∧
    ((ft_separate P item sep a false).1.artist_sort = item.artist_sort ∧
      (ft_separate P item sep a false).2.filter
        (fun e => e.field = str "artist_sort") = []) ∧
    ((ft_separate P { item with artist_sort := [] } sep a s).1.artist_sort = [] ∧
      (ft_separate P { item with artist_sort := [] } sep a s).2.filter
        (fun e => e.field = str "artist_sort") = []) ∧
    ((ft_separate P { item with albumartist := x, artist_sort := y } sep a s).1.artist =
      (ft_separate P { item with albumartist := x2, artist_sort := y2 } sep a2 s2).1.artist) ∧
    ((ft_separate P { item with artist := x, artist_sort := y } sep a s).1.albumartist =
      (ft_separate P { item with artist := x2, artist_sort := y2 } sep a s2).1.albumartist) ∧
    ((ft_separate P { item with artist := x, albumartist := y } sep a s).1.artist_sort =
      (ft_separate P { item with artist := x2, albumartist := y2 } sep a2 s).1.artist_sort) := by
  refine ⟨⟨?_, ?_⟩, ⟨?_, ?_⟩, ⟨?_, ?_⟩, ⟨?_, ?_⟩, ?_, ?_, ?_⟩
  · rw [ft_separate_albumartist]
    simp
  · rw [ft_separate_logs, List.filter_append, List.filter_append,
      filter_logVal_ne _ _ _ _ _ (by decide), if_neg (by simp),
      filter_if_logVal_ne _ _ _ _ _ _ (by decide)]
    rfl
  · rw [ft_separate_albumartist]
    simp
  · rw [ft_separate_logs, List.filter_append, List.filter_append,
      filter_logVal_ne _ _ _ _ _ (by decide), if_neg (by simp),
      filter_if_logVal_ne _ _ _ _ _ _ (by decide)]
    rfl
  · rw [ft_separate_artist_sort]
    simp
  · rw [ft_separate_logs, List.filter_append, List.filter_append,
      filter_logVal_ne _ _ _ _ _ (by decide),
      filter_if_logVal_ne _ _ _ _ _ _ (by decide), if_neg (by simp)]
    rfl
  · rw [ft_separate_artist_sort]
    simp
  · rw [ft_separate_logs, List.filter_append, List.filter_append,
      filter_logVal_ne _ _ _ _ _ (by decide),
      filter_if_logVal_ne _ _ _ _ _ _ (by decide), if_neg (by simp)]
    rfl
  · rw [ft_separate_artist, ft_separate_artist]
  · rw [ft_separate_albumartist, ft_separate_albumartist]
  · rw [ft_separate_artist_sort, ft_separate_artist_sort]

/-- When the stripped field value has no residual match, the rejoined form is
the stripped value itself. -/
lemma rejoined_eq_of_tokens_nil (P : FeatPattern) (sep x : Str)
    (h : P.tokens (strip x) = []) : rejoined P sep x = strip x := by
  unfold rejoined
  rw [split_on_feat_of_tokens_nil P (strip x) h, join_singleton, strip_strip]

/-- A field with no residual match is left unchanged by processing. -/
lemma processVal_eq_self_of_tokens_nil (P : FeatPattern) (sep x : Str)
    (h : P.tokens (strip x) = []) : processVal P sep x = x := by
  unfold processVal
  rw [if_pos (rejoined_eq_of_tokens_nil P sep x h)]

/-- A field with no residual match contributes no log line. -/
lemma logVal_eq_nil_of_tokens_nil (n : Str) (P : FeatPattern) (sep x : Str)
    (h : P.tokens (strip x) = []) : logVal n P sep x = [] := by
  unfold logVal
  rw [if_pos (rejoined_eq_of_tokens_nil P sep x h)]

/-- C7, counterexample to the claim as stated: with the real pattern's
behaviour on these strings ("with" and "feat." are conjunction tokens when
surrounded by whitespace), processing the artist "A fea with B" with the
separator "t. " — a separator in which the pattern has no match — yields
"A feat. B", in which the pattern matches again, so a second application with
the same separator and flags changes the field once more. -/
theorem ft_separate_not_idempotent :
    cexPattern.tokens (str "t. ") = [] ∧
    ¬ (ft_separate cexPattern
          ((ft_separate cexPattern ⟨str "A fea with B", [], []⟩ (str "t. ")
            false false).1) (str "t. ") false false).1 =
        (ft_separate cexPattern ⟨str "A fea with B", [], []⟩ (str "t. ")
          false false).1 := by decide

/-- C7, amended: applying `ft_separate` twice with the same separator and
flags yields the same field values as applying it once, provided the stripped
field values of the once-processed item contain no match of the conjunction
pattern (the spec's assumption that the separator text alone contains no match
is not sufficient, as the counterexample shows); the second application then
changes nothing and logs nothing. -/
theorem ft_separate_idempotent_of_no_residual_match (P : FeatPattern)
    (item : Item) (sep : Str) (a s : Bool)
    (h1 : P.tokens (strip (ft_separate P item sep a s).1.artist) = [])
    (h2 : P.tokens (strip (ft_separate P item sep a s).1.albumartist) = [])
    (h3 : P.tokens (strip (ft_separate P item sep a s).1.artist_sort) = []) :
    ft_separate P (ft_separate P item sep a s).1 sep a s =
      ((ft_separate P item sep a s).1, []) := by
  have ha := processVal_eq_self_of_tokens_nil P sep _ h1
  have hb := processVal_eq_self_of_tokens_nil P sep _ h2
  have hc := processVal_eq_self_of_tokens_nil P sep _ h3
  have la := logVal_eq_nil_of_tokens_nil (str "artist") P sep _ h1
  have lb := logVal_eq_nil_of_tokens_nil (str "albumartist") P sep _ h2
  have lc := logVal_eq_nil_of_tokens_nil (str "artist_sort") P sep _ h3
  rw [ft_separate_eq, ha, hb, hc, la, lb, lc, ite_self, ite_self, ite_self,
    ite_self]
  rfl

/-- Witness for C7's amended theorem: under a pattern with no matches at all,
the residual-match hypotheses hold and a second application is the
identity. -/
theorem ft_separate_idempotent_of_no_residual_match_witness :
    trivPattern.tokens
        (strip (ft_separate trivPattern wItem (str "; ") true true).1.artist) =
      [] ∧
    ft_separate trivPattern
        ((ft_separate trivPattern wItem (str "; ") true true).1) (str "; ")
        true true =
      ((ft_separate trivPattern wItem (str "; ") true true).1, []) :=
  ⟨rfl,
    ft_separate_idempotent_of_no_residual_match trivPattern wItem (str "; ")
      true true rfl rfl rfl⟩

/-- Closed form of the command loop: the processed items are the map of
`ft_separate` over the queried items, and the action trace is, per item in
order, a store of the processed item followed by a try_write of it exactly
when the write setting is active. -/
lemma funcLoop_eq (P : FeatPattern) (sep : Str) (al so write : Bool)
    (items : List Item) :
    funcLoop P sep al so write items =
      (items.map (fun i => (ft_separate P i sep al so).1),
       items.flatMap (fun i =>
         Action.store (ft_separate P i sep al so).1 ::
           if write then [Action.tryWrite (ft_separate P i sep al so).1]
           else [])) := by
  induction items with
  | nil => rfl
  | cons i is ih => simp [funcLoop, ih, List.flatMap_cons]

/-- C8: the manual command processes each queried item independently in
sequence with the set_args-resolved separator and flags; per item the trace
records a store of the processed item, followed by a try_write of it if and
only if the host's global write setting is active; no item's outcome depends
on any other item. -/
theorem commandFunc_per_item (P : FeatPattern) (cfg : Config) (c : CmdLine)
    (write : Bool) (items : List Item) :
    commandFunc P cfg c write items =
      (items.map (fun i =>
         (ft_separate P i (set_args cfg (parseOpts c)).separator
           (set_args cfg (parseOpts c)).convert_album_artist
           (set_args cfg (parseOpts c)).convert_sort_artist).1),
       items.flatMap (fun i =>
         Action.store
             ((ft_separate P i (set_args cfg (parseOpts c)).separator
               (set_args cfg (parseOpts c)).convert_album_artist
               (set_args cfg (parseOpts c)).convert_sort_artist).1) ::
           if write then
             [Action.tryWrite
               ((ft_separate P i (set_args cfg (parseOpts c)).separator
                 (set_args cfg (parseOpts c)).convert_album_artist
                 (set_args cfg (parseOpts c)).convert_sort_artist).1)]
           else [])) := by
  simp only [commandFunc]
  exact funcLoop_eq P _ _ _ write items

/-- Closed form of the import hook: map over the imported items, storing each
processed item in enumeration order. -/
lemma imported_eq (P : FeatPattern) (cfg : Config) (items : List Item) :
    imported P cfg items =
      (items.map (fun i =>
         (ft_separate P i cfg.separator cfg.convert_album_artist
           cfg.convert_sort_artist).1),
       items.map (fun i =>
         Action.store
           ((ft_separate P i cfg.separator cfg.convert_album_artist
             cfg.convert_sort_artist).1))) := by
  induction items with
  | nil => rfl
  | cons i is ih => simp [imported, ih]

/-- C9: when the auto option is true the plugin registers the imported hook as
its import stage; the hook applies `ft_separate` with the configured separator
and flags to each item the task reports as imported, in enumeration order,
stores each processed item, and never issues a try_write on this path. -/
theorem import_hook_per_item (P : FeatPattern) (cfg : Config)
    (items : List Item) (h : cfg.auto = true) :
    import_stages cfg = [Stage.importedStage] ∧
    imported P cfg items =
      (items.map (fun i =>
         (ft_separate P i cfg.separator cfg.convert_album_artist
           cfg.convert_sort_artist).1),
       items.map (fun i =>
         Action.store
           ((ft_separate P i cfg.separator cfg.convert_album_artist
             cfg.convert_sort_artist).1))) ∧
    (∀ x ∈ (imported P cfg items).2, ∀ i, ¬ x = Action.tryWrite i) := by
  refine ⟨by unfold import_stages; rw [if_pos h], imported_eq P cfg items, ?_⟩
  rw [imported_eq]
  intro x hx i
  simp only [List.mem_map] at hx
  obtain ⟨j, _, hj⟩ := hx
  rw [← hj]
  intro hcontra
  exact Action.noConfusion hcontra

/-- Witness for C9 at the default configuration (auto is true) and a
one-element import batch. -/
theorem import_hook_per_item_witness :
    defaultConfig.auto = true ∧
    import_stages defaultConfig = [Stage.importedStage] ∧
    imported trivPattern defaultConfig [wItem] =
      ([(ft_separate trivPattern wItem defaultConfig.separator
          defaultConfig.convert_album_artist
          defaultConfig.convert_sort_artist).1],
       [Action.store
         ((ft_separate trivPattern wItem defaultConfig.separator
           defaultConfig.convert_album_artist
           defaultConfig.convert_sort_artist).1)]) := by
  refine ⟨rfl, ?_, ?_⟩
  · exact (import_hook_per_item trivPattern defaultConfig [wItem] rfl).1
  · exact (import_hook_per_item trivPattern defaultConfig [wItem] rfl).2.1

/-- C10: whenever a field's stripped value rejoins to exactly the stripped
value (in particular when the conjunction pattern has no match in it), the
field is left byte-for-byte equal to its original, possibly untrimmed, value:
trimming alone is never written back. -/
theorem ft_separate_never_persists_trim_alone (P : FeatPattern) (item : Item)
    (sep : Str) (a s : Bool) :
    (join sep (split_on_feat P (strip item.artist)) = strip item.artist →
      (ft_separate P item sep a s).1.artist = item.artist) ∧
    (join sep (split_on_feat P (strip item.albumartist)) =
        strip item.albumartist →
      (ft_separate P item sep a s).1.albumartist = item.albumartist) ∧
    (join sep (split_on_feat P (strip item.artist_sort)) =
        strip item.artist_sort →
      (ft_separate P item sep a s).1.artist_sort = item.artist_sort) := by
  refine ⟨?_, ?_, ?_⟩
  · intro h
    rw [ft_separate_artist, processVal_eq, if_pos h]
  · intro h
    rw [ft_separate_albumartist]
    by_cases g : (a && !item.albumartist.isEmpty) = true
    · rw [if_pos g, processVal_eq, if_pos h]
    · rw [if_neg g]
  · intro h
    rw [ft_separate_artist_sort]
    by_cases g : (s && !item.artist_sort.isEmpty) = true
    · rw [if_pos g, processVal_eq, if_pos h]
    · rw [if_neg g]

/-- A concrete item whose fields carry leading and trailing whitespace but
contain no conjunction. -/
def wsItem : Item := ⟨str " Solo Artist ", str " B ", str " C "⟩

/-- Witness for C10: with whitespace-padded conjunction-free fields, all three
hypotheses hold and the whole item survives untouched. -/
theorem ft_separate_never_persists_trim_alone_witness :
    join (str "; ") (split_on_feat trivPattern (strip wsItem.artist)) =
      strip wsItem.artist ∧
    (ft_separate trivPattern wsItem (str "; ") true true).1 = wsItem := by
  constructor
  · decide
  · have h :=
      ft_separate_never_persists_trim_alone trivPattern wsItem (str "; ")
        true true
    have h1 := h.1 (by decide)
    have h2 := h.2.1 (by decide)
    have h3 := h.2.2 (by decide)
    have heta : (ft_separate trivPattern wsItem (str "; ") true true).1 =
        ⟨(ft_separate trivPattern wsItem (str "; ") true true).1.artist,
         (ft_separate trivPattern wsItem (str "; ") true true).1.albumartist,
         (ft_separate trivPattern wsItem (str "; ") true true).1.artist_sort⟩ :=
      rfl
    rw [heta, h1, h2, h3]

end FtSeparator
